import Mathlib

/-!
Verification of the Day-2 log filter CLI (`log_tool.py`).

The repository holds two near-duplicate implementations of the same tool:
`src/log_tool.py` (the root variant) and `src/day 2 task/log_tool.py` (the
task-sheet variant, embedded here with a `_t2` suffix).  Python strings are
modelled as lists of characters; the driver is modelled as a pure function
from the (optional) input-file lines and the command-line arguments to the
printed standard-output lines and the written output-file content.
-/

/-- A Python string, modelled as its list of characters. -/
abbrev PyStr := List Char

/-- The whitespace characters Python's `str.strip()` removes (the ASCII ones:
space, tab, newline, carriage return, vertical tab, form feed). -/
def pyIsSpace (c : Char) : Bool :=
  c == ' ' || c == '\t' || c == '\n' || c == '\r' || c == Char.ofNat 11 || c == Char.ofNat 12

/-- Python `s.lstrip()`: drop leading whitespace. -/
def stripLeft (s : PyStr) : PyStr := s.dropWhile pyIsSpace

/-- Python `s.rstrip()`: drop trailing whitespace. -/
def stripRight (s : PyStr) : PyStr := (stripLeft s.reverse).reverse

/-- Python `s.strip()`: drop leading and trailing whitespace. -/
def strip (s : PyStr) : PyStr := stripRight (stripLeft s)

/-- Python `s.upper()` (ASCII letters uppercased, everything else unchanged). -/
def upper (s : PyStr) : PyStr := s.map Char.toUpper

/-- Python `s.split(sep)` for a one-character separator: every occurrence of
`sep` separates two segments, so `n` occurrences yield `n + 1` segments,
empty segments included. -/
def splitOn (sep : Char) : PyStr → List PyStr
  | [] => [[]]
  | c :: rest =>
    let r := splitOn sep rest
    if c == sep then [] :: r else (c :: r.headD []) :: r.tail

/-- `ALLOWED_LEVELS = {"INFO", "WARN", "ERROR"}` from `log_tool.py`. -/
def ALLOWED_LEVELS : List PyStr := ["INFO".toList, "WARN".toList, "ERROR".toList]

/-- `DEFAULT_OUT = "filtered_logs.txt"` from `log_tool.py`. -/
def DEFAULT_OUT : PyStr := "filtered_logs.txt".toList

/-- `parse_line` from `log_tool.py` (both variants compute the same function):
strip the line, an empty result is invalid; split on the literal bar
character and strip each part; exactly 4 parts are required, returned as
(timestamp, level, service, message). -/
def parse_line (line : PyStr) : Option (PyStr × PyStr × PyStr × PyStr) :=
  let raw := strip line
  if raw.isEmpty then none
  else
    match (splitOn '|' raw).map strip with
    | [timestamp, level, service, message] => some (timestamp, level, service, message)
    | _ => none

/-- `is_valid_level` from `src/log_tool.py`:
`level.strip().upper() in ALLOWED_LEVELS`. -/
def is_valid_level (level : PyStr) : Bool :=
  ALLOWED_LEVELS.contains (upper (strip level))

/-- `is_valid_level` from `src/day 2 task/log_tool.py`:
`level.upper() in ALLOWED_LEVELS` (no strip). -/
def is_valid_level_t2 (level : PyStr) : Bool :=
  ALLOWED_LEVELS.contains (upper level)

/-- `matches_filters` from `log_tool.py` (identical in both variants):
fail if a level filter is present and `level.upper()` differs from it,
fail if a service filter is present and `service` differs from it,
otherwise succeed. -/
def matches_filters (level service : PyStr) (level_filter service_filter : Option PyStr) : Bool :=
  if level_filter.any (fun lf => upper level != lf) then false
  else if service_filter.any (fun sf => service != sf) then false
  else true

/-- The f-string `f"{timestamp} | {level_up} | {service} | {message}"` built
for each kept record in `main`. -/
def formatRecord (timestamp level_up service message : PyStr) : PyStr :=
  timestamp ++ " | ".toList ++ level_up ++ " | ".toList ++ service ++ " | ".toList ++ message

/-- The three counters/buffers `main` threads through its scan loop. -/
structure ScanState where
  total_valid_scanned : Nat
  lines_written : Nat
  output_lines : List PyStr
deriving DecidableEq

/-- One iteration of the `for line in fin` loop of `main` (identical in both
variants): parse, skip on failure; uppercase the level and skip when it is
not allowed; count the line as valid; when the filters match, append the
formatted record and count it as written. -/
def processLine (level_filter service_filter : Option PyStr) (st : ScanState) (line : PyStr) :
    ScanState :=
  match parse_line line with
  | none => st
  | some (timestamp, level, service, message) =>
    let level_up := upper level
    if ALLOWED_LEVELS.contains level_up then
      let st1 : ScanState := { st with total_valid_scanned := st.total_valid_scanned + 1 }
      if matches_filters level_up service level_filter service_filter then
        { st1 with
          lines_written := st1.lines_written + 1,
          output_lines := st1.output_lines ++ [formatRecord timestamp level_up service message] }
      else st1
    else st

/-- The whole scan loop of `main` over the input file's lines. -/
def run_scan (level_filter service_filter : Option PyStr) (lines : List PyStr) : ScanState :=
  lines.foldl (processLine level_filter service_filter) ⟨0, 0, []⟩

/-- `args.level.upper() if getattr(args, "level", None) else None`: an absent
or empty `--level` argument is no filter, otherwise the filter is the
uppercased argument. -/
def mkLevelFilter (arg_level : Option PyStr) : Option PyStr :=
  match arg_level with
  | some l => if l.isEmpty then none else some (upper l)
  | none => none

/-- `args.service if getattr(args, "service", None) else None`. -/
def mkServiceFilter (arg_service : Option PyStr) : Option PyStr :=
  match arg_service with
  | some s => if s.isEmpty then none else some s
  | none => none

/-- Python `sep.join(parts)`. -/
def pyJoin (sep : PyStr) : List PyStr → PyStr
  | [] => []
  | [s] => s
  | s :: t :: rest => s ++ sep ++ pyJoin sep (t :: rest)

/-- The output-file content `"\n".join(output_lines) + ("\n" if output_lines
else "")` written by `out_path.write_text` (identical in both variants). -/
def writeContent (output_lines : List PyStr) : PyStr :=
  pyJoin ['\n'] output_lines ++ (if output_lines.isEmpty then [] else ['\n'])

/-- Decimal rendering of a counter, as Python's f-string interpolation of an
int prints it. -/
def natStr (n : Nat) : PyStr := (Nat.repr n).toList

/-- The three summary lines `main` prints. -/
def summaryLines (total_valid_scanned lines_written : Nat) (out_name : PyStr) : List PyStr :=
  ["Valid lines scanned: ".toList ++ natStr total_valid_scanned,
   "Lines written: ".toList ++ natStr lines_written,
   "Output file: ".toList ++ out_name]

/-- `PurePath.name`: the part of a path after its last slash (used by the
task-sheet variant's final print of `out_path.name`). -/
def pathName (p : PyStr) : PyStr := (splitOn '/' p).getLastD []

/-- What one run of `main` produces: the lines printed to standard output and
the output-file content, `none` when no file is written. -/
structure RunResult where
  stdout : List PyStr
  written : Option PyStr
deriving DecidableEq

/-- `main` of `src/log_tool.py` as a function of the input file (`none` when
`logs.txt` does not exist, otherwise its lines) and the command-line
arguments.  A missing input file yields the three zero-count summary lines
and no output file; otherwise the file is scanned, the buffer is written and
the summary printed with `out_path` itself. -/
def main_run (log_file : Option (List PyStr)) (arg_level arg_service : Option PyStr)
    (arg_out : PyStr) : RunResult :=
  let level_filter := mkLevelFilter arg_level
  let service_filter := mkServiceFilter arg_service
  match log_file with
  | none => { stdout := summaryLines 0 0 arg_out, written := none }
  | some lines =>
    let st := run_scan level_filter service_filter lines
    { stdout := summaryLines st.total_valid_scanned st.lines_written arg_out,
      written := some (writeContent st.output_lines) }

/-- `main` of `src/day 2 task/log_tool.py`: it first rejects a level filter
outside `ALLOWED_LEVELS` with a single error line, then reports a missing
input file with a single error line; otherwise it scans, writes and prints
the summary, the last line showing `out_path.name`. -/
def main_run_t2 (log_file : Option (List PyStr)) (arg_level arg_service : Option PyStr)
    (arg_out : PyStr) : RunResult :=
  let level_filter := mkLevelFilter arg_level
  let service_filter := mkServiceFilter arg_service
  if level_filter.any (fun lf => !(ALLOWED_LEVELS.contains lf)) then
    { stdout := ["ERROR: --level must be one of INFO, WARN, ERROR (got: ".toList
        ++ arg_level.getD [] ++ ")".toList],
      written := none }
  else
    match log_file with
    | none =>
      { stdout := ["ERROR: Cannot find logs.txt. Put logs.txt in the same folder as this file.".toList],
        written := none }
    | some lines =>
      let st := run_scan level_filter service_filter lines
      { stdout := summaryLines st.total_valid_scanned st.lines_written (pathName arg_out),
        written := some (writeContent st.output_lines) }

/-- A line counts as valid in the driver loop exactly when it parses and its
uppercased level is allowed. -/
def countsAsValid (line : PyStr) : Bool :=
  match parse_line line with
  | some (_, level, _, _) => ALLOWED_LEVELS.contains (upper level)
  | none => false

/-- The filter condition exactly as the claim words it: the level itself
(not its uppercasing) must equal a present level filter, and the service
must equal a present service filter. -/
def claimedMatchCondition (level service : PyStr) (level_filter service_filter : Option PyStr) :
    Prop :=
  (level_filter = none ∨ level_filter = some level) ∧
  (service_filter = none ∨ service_filter = some service)

/-! ### Lemmas about `strip` -/

lemma stripLeft_cons_space {c : Char} (h : pyIsSpace c = true) (x : PyStr) :
    stripLeft (c :: x) = stripLeft x := by
  simp [stripLeft, List.dropWhile_cons, h]

lemma stripLeft_cons_nonspace {c : Char} (h : pyIsSpace c = false) (x : PyStr) :
    stripLeft (c :: x) = c :: x := by
  simp [stripLeft, List.dropWhile_cons, h]

lemma stripLeft_idem (x : PyStr) : stripLeft (stripLeft x) = stripLeft x := by
  induction x with
  | nil => rfl
  | cons c x ih =>
    by_cases h : pyIsSpace c = true
    · rw [stripLeft_cons_space h, ih]
    · have h' : pyIsSpace c = false := by simpa using h
      rw [stripLeft_cons_nonspace h', stripLeft_cons_nonspace h']

lemma stripRight_append_space {c : Char} (h : pyIsSpace c = true) (x : PyStr) :
    stripRight (x ++ [c]) = stripRight x := by
  simp [stripRight, stripLeft_cons_space h]

lemma stripRight_append_nonspace {c : Char} (h : pyIsSpace c = false) (x : PyStr) :
    stripRight (x ++ [c]) = x ++ [c] := by
  simp [stripRight, stripLeft_cons_nonspace h]

lemma stripRight_idem (x : PyStr) : stripRight (stripRight x) = stripRight x := by
  simp [stripRight, stripLeft_idem]

lemma stripRight_cons (c : Char) (x : PyStr) :
    stripRight (c :: x) = if stripRight x = [] then stripRight [c] else c :: stripRight x := by
  have hd : stripLeft (x.reverse ++ [c]) =
      if (stripLeft x.reverse).isEmpty then stripLeft [c] else stripLeft x.reverse ++ [c] :=
    List.dropWhile_append
  have hL : stripRight (c :: x) = (stripLeft (x.reverse ++ [c])).reverse := by
    rw [stripRight, List.reverse_cons]
  by_cases he : (stripLeft x.reverse).isEmpty
  · have hre : stripRight x = [] := by
      rw [stripRight, List.reverse_eq_nil_iff]
      exact List.isEmpty_iff.mp he
    rw [hL, hd, if_pos he, if_pos hre]
    rfl
  · have hre : ¬ stripRight x = [] := by
      rw [stripRight, List.reverse_eq_nil_iff]
      intro h0
      exact he (by simp [h0])
    rw [hL, hd, if_neg he, if_neg hre, List.reverse_append]
    rfl

lemma strip_cons_space {c : Char} (h : pyIsSpace c = true) (x : PyStr) :
    strip (c :: x) = strip x := by
  simp [strip, stripLeft_cons_space h]

lemma strip_append_space {c : Char} (h : pyIsSpace c = true) (x : PyStr) :
    strip (x ++ [c]) = strip x := by
  have hd : stripLeft (x ++ [c]) =
      if (stripLeft x).isEmpty then stripLeft [c] else stripLeft x ++ [c] :=
    List.dropWhile_append
  show stripRight (stripLeft (x ++ [c])) = stripRight (stripLeft x)
  rw [hd]
  by_cases he : (stripLeft x).isEmpty
  · have h1 : stripLeft [c] = ([] : PyStr) := by
      simp [stripLeft, List.dropWhile_cons, h, List.dropWhile]
    have h2 : stripLeft x = ([] : PyStr) := List.isEmpty_iff.mp he
    rw [if_pos he, h1, h2]
  · rw [if_neg he]
    exact stripRight_append_space h _

lemma stripRight_stripLeft_comm (x : PyStr) :
    stripRight (stripLeft x) = stripLeft (stripRight x) := by
  induction x with
  | nil => rfl
  | cons c x ih =>
    by_cases h : pyIsSpace c = true
    · rw [stripLeft_cons_space h, ih, stripRight_cons]
      by_cases he : stripRight x = []
      · have : stripRight [c] = ([] : PyStr) := by
          simp [stripRight, stripLeft, List.dropWhile, h]
        rw [if_pos he, this, he]
      · rw [if_neg he, stripLeft_cons_space h]
    · have h' : pyIsSpace c = false := by simpa using h
      rw [stripLeft_cons_nonspace h', stripRight_cons]
      by_cases he : stripRight x = []
      · have : stripRight [c] = [c] := by
          simp [stripRight, stripLeft, List.dropWhile, h']
        rw [if_pos he, this, stripLeft_cons_nonspace h']
      · rw [if_neg he, stripLeft_cons_nonspace h']

lemma strip_idem (x : PyStr) : strip (strip x) = strip x := by
  show stripRight (stripLeft (stripRight (stripLeft x))) = stripRight (stripLeft x)
  rw [← stripRight_stripLeft_comm (stripLeft x), stripLeft_idem,
    stripRight_idem]

/-! ### Membership facts about `strip` -/

lemma mem_of_mem_stripLeft {a : Char} {x : PyStr} (h : a ∈ stripLeft x) : a ∈ x :=
  List.Sublist.mem h (List.dropWhile_sublist pyIsSpace)

lemma mem_of_mem_stripRight {a : Char} {x : PyStr} (h : a ∈ stripRight x) : a ∈ x := by
  rw [stripRight, List.mem_reverse] at h
  exact List.mem_reverse.mp (mem_of_mem_stripLeft h)

lemma mem_of_mem_strip {a : Char} {x : PyStr} (h : a ∈ strip x) : a ∈ x :=
  mem_of_mem_stripLeft (mem_of_mem_stripRight h)

lemma nonspace_mem_stripLeft {a : Char} (ha : pyIsSpace a = false) {x : PyStr} (h : a ∈ x) :
    a ∈ stripLeft x := by
  induction x with
  | nil => cases h
  | cons c x ih =>
    by_cases hc : pyIsSpace c = true
    · rw [stripLeft_cons_space hc]
      rcases List.mem_cons.mp h with h1 | h1
      · subst h1
        rw [ha] at hc
        cases hc
      · exact ih h1
    · have hc' : pyIsSpace c = false := by simpa using hc
      rw [stripLeft_cons_nonspace hc']
      exact h

lemma nonspace_mem_strip {a : Char} (ha : pyIsSpace a = false) {x : PyStr} (h : a ∈ x) :
    a ∈ strip x := by
  have h1 : a ∈ stripLeft x := nonspace_mem_stripLeft ha h
  show a ∈ stripRight (stripLeft x)
  rw [stripRight, List.mem_reverse]
  exact nonspace_mem_stripLeft ha (List.mem_reverse.mpr h1)

/-! ### Lemmas about `splitOn` -/

lemma splitOn_ne_nil (sep : Char) (x : PyStr) : splitOn sep x ≠ [] := by
  cases x with
  | nil => simp [splitOn]
  | cons c rest =>
    by_cases h : c == sep <;> simp [splitOn, h]

lemma splitOn_cons_sep (sep : Char) (x : PyStr) :
    splitOn sep (sep :: x) = [] :: splitOn sep x := by
  simp [splitOn]

lemma splitOn_cons_ne {c sep : Char} (h : ¬ c = sep) (x : PyStr) :
    splitOn sep (c :: x) = (c :: (splitOn sep x).headD []) :: (splitOn sep x).tail := by
  simp [splitOn, h]

lemma splitOn_no_sep {sep : Char} {x : PyStr} (h : sep ∉ x) : splitOn sep x = [x] := by
  induction x with
  | nil => rfl
  | cons c rest ih =>
    have hc : ¬ c = sep := fun e => h (by rw [e]; exact List.mem_cons_self _ _)
    have hr : sep ∉ rest := fun e => h (List.mem_cons_of_mem _ e)
    rw [splitOn_cons_ne hc, ih hr]
    rfl

lemma splitOn_append_no_sep {sep : Char} {a : PyStr} (h : sep ∉ a) (b : PyStr) :
    splitOn sep (a ++ b) = (a ++ (splitOn sep b).headD []) :: (splitOn sep b).tail := by
  induction a with
  | nil =>
    obtain ⟨hb, tb, eb⟩ := List.exists_cons_of_ne_nil (splitOn_ne_nil sep b)
    simp [eb]
  | cons c a ih =>
    have hc : ¬ c = sep := fun e => h (by rw [e]; exact List.mem_cons_self _ _)
    have ha : sep ∉ a := fun e => h (List.mem_cons_of_mem _ e)
    rw [List.cons_append, splitOn_cons_ne hc, ih ha]
    rfl

lemma splitOn_append_sep_cons {sep : Char} {a : PyStr} (h : sep ∉ a) (b : PyStr) :
    splitOn sep (a ++ sep :: b) = a :: splitOn sep b := by
  rw [splitOn_append_no_sep h, splitOn_cons_sep]
  simp

lemma mem_splitOn_no_sep {sep : Char} {x s : PyStr} (hs : s ∈ splitOn sep x) : sep ∉ s := by
  induction x generalizing s with
  | nil =>
    have : s = [] := by simpa [splitOn] using hs
    subst this
    exact List.not_mem_nil sep
  | cons c rest ih =>
    obtain ⟨hh, tt, er⟩ := List.exists_cons_of_ne_nil (splitOn_ne_nil sep rest)
    by_cases hc : c = sep
    · subst hc
      rw [splitOn_cons_sep] at hs
      rcases List.mem_cons.mp hs with h1 | h1
      · subst h1
        exact List.not_mem_nil _
      · exact ih h1
    · rw [splitOn_cons_ne hc, er] at hs
      have hmemh : hh ∈ splitOn sep rest := by
        rw [er]
        exact List.mem_cons_self hh tt
      rcases List.mem_cons.mp hs with h1 | h1
      · subst h1
        intro hm
        rcases List.mem_cons.mp hm with h2 | h2
        · exact hc h2.symm
        · exact ih hmemh h2
      · have hmem1 : s ∈ splitOn sep rest := by
          rw [er]
          exact List.mem_cons_of_mem hh h1
        exact ih hmem1

lemma splitOn_append_last {sep c : Char} (hc : ¬ c = sep) (x : PyStr) :
    splitOn sep (x ++ [c]) =
      (splitOn sep x).dropLast ++ [(splitOn sep x).getLastD [] ++ [c]] := by
  induction x with
  | nil =>
    rw [List.nil_append, splitOn_cons_ne hc]
    rfl
  | cons d x ih =>
    by_cases hd : d = sep
    · rw [List.cons_append, hd, splitOn_cons_sep, splitOn_cons_sep, ih]
      obtain ⟨hh, tt, er⟩ := List.exists_cons_of_ne_nil (splitOn_ne_nil sep x)
      rw [er]
      simp [List.getLastD_cons]
    · rw [List.cons_append, splitOn_cons_ne hd, splitOn_cons_ne hd, ih]
      obtain ⟨hh, tt, er⟩ := List.exists_cons_of_ne_nil (splitOn_ne_nil sep x)
      rw [er]
      cases tt with
      | nil => simp
      | cons h2 t2 => simp [List.getLastD_cons]

lemma map_strip_splitOn_cons_space {sep c : Char} (hsep : pyIsSpace sep = false)
    (hc : pyIsSpace c = true) (x : PyStr) :
    (splitOn sep (c :: x)).map strip = (splitOn sep x).map strip := by
  have hcs : ¬ c = sep := by
    intro e
    rw [e, hsep] at hc
    cases hc
  obtain ⟨hh, tt, er⟩ := List.exists_cons_of_ne_nil (splitOn_ne_nil sep x)
  rw [splitOn_cons_ne hcs, er]
  simp [strip_cons_space hc]

lemma map_strip_splitOn_stripLeft {sep : Char} (hsep : pyIsSpace sep = false) (x : PyStr) :
    (splitOn sep (stripLeft x)).map strip = (splitOn sep x).map strip := by
  induction x with
  | nil => rfl
  | cons c x ih =>
    by_cases h : pyIsSpace c = true
    · rw [stripLeft_cons_space h, ih, map_strip_splitOn_cons_space hsep h]
    · rw [stripLeft_cons_nonspace (by simpa using h)]

lemma map_strip_splitOn_append_space {sep c : Char} (hsep : pyIsSpace sep = false)
    (hc : pyIsSpace c = true) (x : PyStr) :
    (splitOn sep (x ++ [c])).map strip = (splitOn sep x).map strip := by
  have hcs : ¬ c = sep := by
    intro e
    rw [e, hsep] at hc
    cases hc
  have hne := splitOn_ne_nil sep x
  have hgl : (splitOn sep x).getLastD [] = (splitOn sep x).getLast hne := by
    rw [List.getLastD_eq_getLast?, List.getLast?_eq_getLast _ hne]
    rfl
  rw [splitOn_append_last hcs]
  calc ((splitOn sep x).dropLast ++ [(splitOn sep x).getLastD [] ++ [c]]).map strip
      = (splitOn sep x).dropLast.map strip ++ [strip ((splitOn sep x).getLastD [] ++ [c])] := by
        rw [List.map_append]
        rfl
    _ = (splitOn sep x).dropLast.map strip ++ [strip ((splitOn sep x).getLast hne)] := by
        rw [strip_append_space hc, hgl]
    _ = ((splitOn sep x).dropLast ++ [(splitOn sep x).getLast hne]).map strip := by
        rw [List.map_append]
        rfl
    _ = (splitOn sep x).map strip := by rw [List.dropLast_append_getLast hne]

lemma map_strip_splitOn_stripRight {sep : Char} (hsep : pyIsSpace sep = false) (x : PyStr) :
    (splitOn sep (stripRight x)).map strip = (splitOn sep x).map strip := by
  induction x using List.reverseRecOn with
  | nil => rfl
  | append_singleton x c ih =>
    by_cases h : pyIsSpace c = true
    · rw [stripRight_append_space h, ih, map_strip_splitOn_append_space hsep h]
    · rw [stripRight_append_nonspace (by simpa using h)]

lemma map_strip_splitOn_strip {sep : Char} (hsep : pyIsSpace sep = false) (x : PyStr) :
    (splitOn sep (strip x)).map strip = (splitOn sep x).map strip := by
  show (splitOn sep (stripRight (stripLeft x))).map strip = _
  rw [map_strip_splitOn_stripRight hsep, map_strip_splitOn_stripLeft hsep]

/-! ### Characterization of `parse_line` -/

lemma parse_line_some_iff (line t lv sv m : PyStr) :
    parse_line line = some (t, lv, sv, m) ↔
      strip line ≠ [] ∧ (splitOn '|' (strip line)).map strip = [t, lv, sv, m] := by
  by_cases he : (strip line).isEmpty
  · have h0 : strip line = [] := List.isEmpty_iff.mp he
    simp [parse_line, he, h0]
  · have hne : strip line ≠ [] := fun h0 => he (by simp [h0])
    simp only [parse_line]
    rw [if_neg he]
    split
    next a b c d heq =>
      rw [heq]
      simp [hne]
    next hno =>
      simp only [hne, ne_eq, not_false_eq_true, true_and]
      constructor
      · intro h
        cases h
      · intro h2
        exact absurd h2 (hno t lv sv m)

lemma parse_line_fields {line t lv sv m : PyStr} (h : parse_line line = some (t, lv, sv, m)) :
    strip t = t ∧ strip lv = lv ∧ strip sv = sv ∧ strip m = m ∧
    '|' ∉ t ∧ '|' ∉ lv ∧ '|' ∉ sv ∧ '|' ∉ m := by
  obtain ⟨hne, he⟩ := (parse_line_some_iff line t lv sv m).mp h
  rcases es : splitOn '|' (strip line) with _ | ⟨a, _ | ⟨b, _ | ⟨c, _ | ⟨d, _ | rest⟩⟩⟩⟩ <;>
    rw [es] at he <;> simp at he
  obtain ⟨ea, eb, ec, ed⟩ := he
  have ha : a ∈ splitOn '|' (strip line) := by
    rw [es]
    simp
  have hb : b ∈ splitOn '|' (strip line) := by
    rw [es]
    simp
  have hcm : c ∈ splitOn '|' (strip line) := by
    rw [es]
    simp
  have hd : d ∈ splitOn '|' (strip line) := by
    rw [es]
    simp
  refine ⟨?_, ?_, ?_, ?_, ?_, ?_, ?_, ?_⟩
  · rw [← ea, strip_idem]
  · rw [← eb, strip_idem]
  · rw [← ec, strip_idem]
  · rw [← ed, strip_idem]
  · intro hm
    rw [← ea] at hm
    exact mem_splitOn_no_sep ha (mem_of_mem_strip hm)
  · intro hm
    rw [← eb] at hm
    exact mem_splitOn_no_sep hb (mem_of_mem_strip hm)
  · intro hm
    rw [← ec] at hm
    exact mem_splitOn_no_sep hcm (mem_of_mem_strip hm)
  · intro hm
    rw [← ed] at hm
    exact mem_splitOn_no_sep hd (mem_of_mem_strip hm)

/-! ### The allowed-level set -/

lemma allowed_contains_iff (L : PyStr) :
    ALLOWED_LEVELS.contains L = true ↔
      L = "INFO".toList ∨ L = "WARN".toList ∨ L = "ERROR".toList := by
  simp [ALLOWED_LEVELS, List.contains_cons]

lemma allowed_level_props {L : PyStr} (h : ALLOWED_LEVELS.contains L = true) :
    strip L = L ∧ '|' ∉ L := by
  rcases (allowed_contains_iff L).mp h with e | e | e <;> subst e <;>
    exact ⟨by decide, by decide⟩

/-- C8: Round-trip for kept records.  A record is kept only when its
uppercased level is allowed; the emitted output line re-parses to the same
record with the level field forced to uppercase and every other field equal
to the input record's trimmed field. -/
theorem kept_record_roundtrip (line t lv sv m : PyStr)
    (hp : parse_line line = some (t, lv, sv, m))
    (hk : ALLOWED_LEVELS.contains (upper lv) = true) :
    parse_line (formatRecord t (upper lv) sv m) = some (t, upper lv, sv, m) := by
  obtain ⟨hst, -, hss, hsm, hpt, -, hps, hpm⟩ := parse_line_fields hp
  obtain ⟨hsL, hpL⟩ := allowed_level_props hk
  have hsp : pyIsSpace ' ' = true := by decide
  have hbar : '|' ∈ formatRecord t (upper lv) sv m := by
    have hm0 : '|' ∈ (" | ".toList : PyStr) := by decide
    simp only [formatRecord, List.mem_append]
    tauto
  have hraw_ne : strip (formatRecord t (upper lv) sv m) ≠ [] :=
    List.ne_nil_of_mem (nonspace_mem_strip (by decide) hbar)
  have htl : (" | ".toList : PyStr) = [' ', '|', ' '] := rfl
  have e1 : formatRecord t (upper lv) sv m =
      (t ++ [' ']) ++ '|' :: ((' ' :: (upper lv ++ [' '])) ++ '|' ::
        ((' ' :: (sv ++ [' '])) ++ '|' :: (' ' :: m))) := by
    simp [formatRecord, htl, List.append_assoc]
  have hnt : '|' ∉ t ++ [' '] := by
    intro hm0
    rcases List.mem_append.mp hm0 with h1 | h1
    · exact hpt h1
    · simp at h1
  have hnl : '|' ∉ ' ' :: (upper lv ++ [' ']) := by
    intro hm0
    rcases List.mem_cons.mp hm0 with h1 | h1
    · cases h1
    · rcases List.mem_append.mp h1 with h2 | h2
      · exact hpL h2
      · simp at h2
  have hns : '|' ∉ ' ' :: (sv ++ [' ']) := by
    intro hm0
    rcases List.mem_cons.mp hm0 with h1 | h1
    · cases h1
    · rcases List.mem_append.mp h1 with h2 | h2
      · exact hps h2
      · simp at h2
  have hnm : '|' ∉ ' ' :: m := by
    intro hm0
    rcases List.mem_cons.mp hm0 with h1 | h1
    · cases h1
    · exact hpm h1
  have hsplit : (splitOn '|' (formatRecord t (upper lv) sv m)).map strip =
      [t, upper lv, sv, m] := by
    rw [e1, splitOn_append_sep_cons hnt, splitOn_append_sep_cons hnl,
      splitOn_append_sep_cons hns, splitOn_no_sep hnm]
    simp only [List.map_cons, List.map_nil, strip_append_space hsp,
      strip_cons_space hsp, hst, hsL, hss, hsm]
  refine (parse_line_some_iff _ _ _ _ _).mpr ⟨hraw_ne, ?_⟩
  rw [map_strip_splitOn_strip (by decide)]
  exact hsplit

/-- Witness for C8 at a concrete kept record. -/
theorem kept_record_roundtrip_witness :
    parse_line (formatRecord ("2024-01-01T00:00:00".toList) (upper ("info".toList))
        ("auth".toList) ("login ok".toList)) =
      some ("2024-01-01T00:00:00".toList, upper ("info".toList), "auth".toList,
        "login ok".toList) :=
  kept_record_roundtrip ("2024-01-01T00:00:00 | info | auth | login ok".toList)
    ("2024-01-01T00:00:00".toList) ("info".toList) ("auth".toList) ("login ok".toList)
    (by decide) (by decide)

/-- C10: Every field of a successfully parsed record is already trimmed and
contains no bar character, so the formatted output line is unambiguous. -/
theorem parsed_fields_invariant (line t lv sv m : PyStr)
    (h : parse_line line = some (t, lv, sv, m)) :
    (strip t = t ∧ strip lv = lv ∧ strip sv = sv ∧ strip m = m) ∧
    ('|' ∉ t ∧ '|' ∉ lv ∧ '|' ∉ sv ∧ '|' ∉ m) := by
  obtain ⟨h1, h2, h3, h4, h5, h6, h7, h8⟩ := parse_line_fields h
  exact ⟨⟨h1, h2, h3, h4⟩, h5, h6, h7, h8⟩

/-- Witness for C10 at a concrete parsed line. -/
theorem parsed_fields_invariant_witness :
    (strip ("2024".toList) = "2024".toList ∧ strip ("info".toList) = "info".toList ∧
      strip ("auth".toList) = "auth".toList ∧ strip ("hello".toList) = "hello".toList) ∧
    ('|' ∉ ("2024".toList : PyStr) ∧ '|' ∉ ("info".toList : PyStr) ∧
      '|' ∉ ("auth".toList : PyStr) ∧ '|' ∉ ("hello".toList : PyStr)) :=
  parsed_fields_invariant (" 2024 | info | auth | hello ".toList) ("2024".toList)
    ("info".toList) ("auth".toList) ("hello".toList) (by decide)

/-- C2: The parser returns the four trimmed segments exactly when the
stripped line is nonempty and splitting it on the bar character yields
exactly 4 segments after trimming each; the empty and wrong-count cases
yield the invalid result. -/
theorem parse_line_spec (line t lv sv m : PyStr) :
    (strip line = [] → parse_line line = none) ∧
    (parse_line line = some (t, lv, sv, m) ↔
      strip line ≠ [] ∧ (splitOn '|' (strip line)).map strip = [t, lv, sv, m]) ∧
    (((splitOn '|' (strip line)).map strip).length ≠ 4 → parse_line line = none) := by
  refine ⟨?_, parse_line_some_iff line t lv sv m, ?_⟩
  · intro h0
    simp [parse_line, h0]
  · intro hlen
    rcases hq : parse_line line with - | ⟨a, b, c, d⟩
    · rfl
    · obtain ⟨-, he⟩ := (parse_line_some_iff line a b c d).mp hq
      rw [he] at hlen
      simp at hlen

/-- C1: In the driver loop, a line increments the valid-scanned counter
exactly when it parses into 4 fields with an allowed uppercased level, and a
line failing either check leaves the whole scan state (both counters and the
buffer) unchanged; the per-file version over a final appended line follows. -/
theorem scan_counts_valid_iff (level_filter service_filter : Option PyStr) (st : ScanState)
    (line : PyStr) :
    (processLine level_filter service_filter st line).total_valid_scanned =
        st.total_valid_scanned + (if countsAsValid line then 1 else 0) ∧
    (countsAsValid line = false → processLine level_filter service_filter st line = st) ∧
    (countsAsValid line = true ↔
      ∃ t lv sv m, parse_line line = some (t, lv, sv, m) ∧
        ALLOWED_LEVELS.contains (upper lv) = true) ∧
    ∀ lines : List PyStr,
      (run_scan level_filter service_filter (lines ++ [line])).total_valid_scanned =
        (run_scan level_filter service_filter lines).total_valid_scanned +
          (if countsAsValid line then 1 else 0) := by
  have h1 : ∀ s : ScanState, (processLine level_filter service_filter s line).total_valid_scanned =
      s.total_valid_scanned + (if countsAsValid line then 1 else 0) := by
    intro s
    rcases hp : parse_line line with - | ⟨t, lv, sv, m⟩
    · simp [processLine, countsAsValid, hp]
    · by_cases hc : upper lv ∈ ALLOWED_LEVELS
      · by_cases hm : matches_filters (upper lv) sv level_filter service_filter <;>
          simp [processLine, countsAsValid, hp, hc, hm]
      · simp [processLine, countsAsValid, hp, hc]
  refine ⟨h1 st, ?_, ?_, ?_⟩
  · intro hcv
    rcases hp : parse_line line with - | ⟨t, lv, sv, m⟩
    · simp [processLine, hp]
    · have hc : ¬ upper lv ∈ ALLOWED_LEVELS := by
        simpa [countsAsValid, hp] using hcv
      simp [processLine, hp, hc]
  · rcases hp : parse_line line with - | ⟨t, lv, sv, m⟩
    · simp [countsAsValid, hp]
    · constructor
      · intro h
        have hc : ALLOWED_LEVELS.contains (upper lv) = true := by
          simpa [countsAsValid, hp] using h
        exact ⟨t, lv, sv, m, rfl, hc⟩
      · rintro ⟨t1, lv1, sv1, m1, hp1, hmem⟩
        simp only [Option.some.injEq, Prod.mk.injEq] at hp1
        obtain ⟨-, h2, -, -⟩ := hp1
        simp only [countsAsValid, hp]
        rw [h2]
        exact hmem
  · intro lines
    show ((lines ++ [line]).foldl (processLine level_filter service_filter) ⟨0, 0, []⟩).total_valid_scanned = _
    rw [List.foldl_append]
    exact h1 _

/-- C4: Both level validators accept exactly the strings whose uppercased
(for the root variant, trimmed-then-uppercased) form is INFO, WARN or ERROR;
in particular lower- and mixed-case spellings are accepted. -/
theorem is_valid_level_spec (level : PyStr) :
    (is_valid_level level = true ↔
      (upper (strip level) = "INFO".toList ∨ upper (strip level) = "WARN".toList ∨
        upper (strip level) = "ERROR".toList)) ∧
    (is_valid_level_t2 level = true ↔
      (upper level = "INFO".toList ∨ upper level = "WARN".toList ∨
        upper level = "ERROR".toList)) ∧
    is_valid_level ("info".toList) = true ∧ is_valid_level ("Info".toList) = true ∧
    is_valid_level ("INFO".toList) = true ∧ is_valid_level_t2 ("info".toList) = true ∧
    is_valid_level_t2 ("Info".toList) = true ∧ is_valid_level_t2 ("INFO".toList) = true :=
  ⟨allowed_contains_iff (upper (strip level)), allowed_contains_iff (upper level),
    by decide, by decide, by decide, by decide, by decide, by decide⟩

/-- Counterexample to C3 as stated: with the level string written in lower
case, the matcher accepts against an uppercase level filter even though the
level string itself does not equal the filter, because the code compares
`level.upper()` with the filter. -/
theorem matches_filters_claim_counterexample :
    matches_filters ("info".toList) ("auth".toList) (some ("INFO".toList)) none = true ∧
    ¬ claimedMatchCondition ("info".toList) ("auth".toList) (some ("INFO".toList)) none := by
  constructor
  · decide
  · unfold claimedMatchCondition
    decide

lemma matches_filters_true_iff (level service : PyStr)
    (level_filter service_filter : Option PyStr) :
    matches_filters level service level_filter service_filter = true ↔
      (level_filter.any (fun l0 => upper level != l0) = false ∧
       service_filter.any (fun s0 => service != s0) = false) := by
  unfold matches_filters
  by_cases hA : level_filter.any (fun l0 => upper level != l0) <;>
    by_cases hB : service_filter.any (fun s0 => service != s0) <;> simp [hA, hB]

/-- C3 (amended): the matcher returns true exactly when each present filter
is matched, the level filter against the uppercased level and the service
filter against the service string as-is. -/
theorem matches_filters_iff (level service : PyStr) (level_filter service_filter : Option PyStr) :
    matches_filters level service level_filter service_filter = true ↔
      (level_filter = none ∨ level_filter = some (upper level)) ∧
      (service_filter = none ∨ service_filter = some service) := by
  rw [matches_filters_true_iff]
  constructor
  · rintro ⟨hA, hB⟩
    constructor
    · cases level_filter with
      | none => exact Or.inl rfl
      | some lf0 =>
        right
        have hb : (upper level != lf0) = false := by simpa [Option.any] using hA
        have he : upper level = lf0 := by simpa using hb
        rw [he]
    · cases service_filter with
      | none => exact Or.inl rfl
      | some sf0 =>
        right
        have hb : (service != sf0) = false := by simpa [Option.any] using hB
        have he : service = sf0 := by simpa using hb
        rw [he]
  · rintro ⟨h1, h2⟩
    constructor
    · rcases h1 with h1 | h1 <;> rw [h1] <;> simp [Option.any]
    · rcases h2 with h2 | h2 <;> rw [h2] <;> simp [Option.any]

/-- C5: The filter predicate is monotonic: no filters match every record, and
a run with a present filter accepts only records the corresponding
absent-filter run accepts. -/
theorem matches_filters_monotone (level service : PyStr)
    (level_filter service_filter : Option PyStr) :
    matches_filters level service none none = true ∧
    (matches_filters level service level_filter service_filter = true →
      matches_filters level service none service_filter = true ∧
      matches_filters level service level_filter none = true) := by
  constructor
  · rfl
  · intro h
    cases level_filter <;> cases service_filter <;>
      revert h <;> simp [matches_filters] <;> tauto

/-- Counterexample to C6 as stated: on a missing input file the task-sheet
variant prints a single error line, not the three zero-count summary lines. -/
theorem missing_input_t2_counterexample :
    (main_run_t2 none none none DEFAULT_OUT).stdout ≠ summaryLines 0 0 DEFAULT_OUT ∧
    (main_run_t2 none none none DEFAULT_OUT).stdout.length = 1 := by
  constructor
  · decide
  · rfl

/-- C6 (amended): when the input file does not exist, the root variant
prints the three summary lines with zero counts and the resolved output
path and writes no output file; the task-sheet variant writes no output
file either (it prints a single error line instead of the summary). -/
theorem missing_input_behavior (arg_level arg_service : Option PyStr) (arg_out : PyStr) :
    main_run none arg_level arg_service arg_out =
      { stdout := summaryLines 0 0 arg_out, written := none } ∧
    (main_run_t2 none arg_level arg_service arg_out).written = none := by
  constructor
  · rfl
  · show (main_run_t2 none arg_level arg_service arg_out).written = none
    simp only [main_run_t2]
    split
    · rfl
    · rfl

lemma writeContent_eq_join (ls : List PyStr) :
    writeContent ls = (ls.map (fun l => l ++ ['\n'])).flatten := by
  induction ls with
  | nil => rfl
  | cons a t ih =>
    cases t with
    | nil => simp [writeContent, pyJoin]
    | cons b t2 =>
      have ih2 : pyJoin ['\n'] (b :: t2) ++ ['\n'] =
          ((b :: t2).map (fun l => l ++ ['\n'])).flatten := by
        simpa [writeContent] using ih
      calc writeContent (a :: b :: t2)
          = (a ++ ['\n'] ++ pyJoin ['\n'] (b :: t2)) ++ ['\n'] := rfl
        _ = (a ++ ['\n']) ++ (pyJoin ['\n'] (b :: t2) ++ ['\n']) := by
            rw [List.append_assoc]
        _ = (a ++ ['\n']) ++ ((b :: t2).map (fun l => l ++ ['\n'])).flatten := by rw [ih2]
        _ = ((a :: b :: t2).map (fun l => l ++ ['\n'])).flatten := by simp

/-- C7: The output file's content is exactly the matched formatted records in
input order, each terminated by a newline, and an empty match buffer yields a
zero-byte file. -/
theorem output_content_exact (lines : List PyStr) (arg_level arg_service : Option PyStr)
    (arg_out : PyStr) :
    (main_run (some lines) arg_level arg_service arg_out).written =
      some ((((run_scan (mkLevelFilter arg_level) (mkServiceFilter arg_service)
        lines).output_lines).map (fun l => l ++ ['\n'])).flatten) ∧
    ((run_scan (mkLevelFilter arg_level) (mkServiceFilter arg_service) lines).output_lines = [] →
      (main_run (some lines) arg_level arg_service arg_out).written = some []) := by
  constructor
  · show some (writeContent
        (run_scan (mkLevelFilter arg_level) (mkServiceFilter arg_service) lines).output_lines) = _
    rw [writeContent_eq_join]
  · intro h0
    show some (writeContent
        (run_scan (mkLevelFilter arg_level) (mkServiceFilter arg_service) lines).output_lines) =
      some []
    rw [h0]
    rfl

/-- Counterexample to C9 as stated: the task-sheet variant prints a single
error line, not three, when the level filter is unrecognized. -/
theorem three_line_summary_t2_counterexample :
    (main_run_t2 (some []) (some ("VERB".toList)) none DEFAULT_OUT).stdout.length ≠ 3 ∧
    (main_run_t2 (some []) (some ("VERB".toList)) none DEFAULT_OUT).stdout.length = 1 := by
  constructor
  · decide
  · decide

/-- C9 (amended): the root variant prints exactly three lines, in the fixed
summary format with the resolved output path, on every run - missing input
file included. -/
theorem three_line_summary (log_file : Option (List PyStr)) (arg_level arg_service : Option PyStr)
    (arg_out : PyStr) :
    (main_run log_file arg_level arg_service arg_out).stdout.length = 3 ∧
    ∃ n w, (main_run log_file arg_level arg_service arg_out).stdout = summaryLines n w arg_out := by
  cases log_file with
  | none => exact ⟨rfl, 0, 0, rfl⟩
  | some lines => exact ⟨rfl, _, _, rfl⟩
